import Mathlib

/-
Verification of the vscode-kanbn board/task editor core against its design
specification.

The development shallowly embeds the pieces of the extension that the
specification talks about:

* `resolveBoardPath` (ext-src/pathUtils.ts) together with a faithful model of
  the Node `path.posix` functions (`normalize`, `join`, `resolve`,
  `isAbsolute`) it calls;
* the two file-system adapter variants (`VscodeFileSystemAdapter`): the
  multi-document variant that registers callback pairs per document path and
  falls back to real disk, and the main-index variants (disk-backed and fully
  virtual) keyed on the single board-index document;
* the board-scoped instance manager (`KanbnGlobalManager`) with
  `getKanbnForDocument` / `cleanupDocument`, where JavaScript object identity
  is modelled by an allocation counter;
* the per-document edit coordinator `makeEdit` with its undo/redo change
  records.

Mutable JavaScript state is rendered as explicit state passing; editor buffers
and the real disk live in an explicit `World`; `Map` objects become
association lists with JavaScript `Map.set`/`Map.delete` semantics; thrown
errors become `Except` values carrying the error condition.
-/

deriving instance DecidableEq for Except

/-! ## Node `path.posix` model (character level) -/

/-- Characters accepted as whitespace by the JavaScript `String.trim` that
`resolveBoardPath` uses for its blank-input test (ASCII whitespace; the exotic
Unicode space characters recognised by JavaScript never occur in the inputs
considered here). -/
def jsWhitespaceChar (c : Char) : Bool :=
  c == ' ' || c == '\t' || c == '\n' || c == '\r' ||
  c == Char.ofNat 11 || c == Char.ofNat 12

/-- The blank-path test of `resolveBoardPath`: the JavaScript condition
`!boardPath || boardPath.trim() === ''` holds exactly when every character of
the string is whitespace (in particular for the empty string). -/
def jsIsBlank (s : String) : Bool := s.data.all jsWhitespaceChar

/-- Split a character list at every '/' (keeping empty pieces), carrying the
reversed current piece. -/
def splitSlashAux : List Char → List Char → List (List Char)
  | [], cur => [cur.reverse]
  | c :: rest, cur =>
      if c = '/' then cur.reverse :: splitSlashAux rest []
      else splitSlashAux rest (c :: cur)

/-- Split a character list into its '/'-separated segments. -/
def splitSlash (l : List Char) : List (List Char) := splitSlashAux l []

/-- Join path segments with '/' separators. -/
def joinSegs : List (List Char) → List Char
  | [] => []
  | [x] => x
  | x :: y :: rest => x ++ '/' :: joinSegs (y :: rest)

/-- One step of the segment resolution performed by Node's internal
`normalizeString`: empty and "." segments are dropped; ".." pops the previous
segment when one is available, is kept (stacked) for relative paths, and is
discarded above the root of absolute paths. The accumulator holds the output
segments in reverse. -/
def normStep (allowAboveRoot : Bool) (acc : List (List Char)) (seg : List Char) :
    List (List Char) :=
  if seg = [] ∨ seg = ['.'] then acc
  else if seg = ['.', '.'] then
    match acc with
    | [] => if allowAboveRoot then [['.', '.']] else []
    | top :: rest =>
        if top = ['.', '.'] then (if allowAboveRoot then seg :: acc else acc) else rest
  else seg :: acc

/-- Node's `normalizeString` on segment lists. -/
def normSegs (allowAboveRoot : Bool) (segs : List (List Char)) : List (List Char) :=
  (segs.foldl (normStep allowAboveRoot) []).reverse

/-- Whether a character list begins with '/'. -/
def headIsSlash (l : List Char) : Bool :=
  match l with
  | [] => false
  | c :: _ => c = '/'

/-- Whether a character list ends with '/'. -/
def lastIsSlash : List Char → Bool
  | [] => false
  | [c] => c = '/'
  | _ :: c :: rest => lastIsSlash (c :: rest)

/-- Node `path.posix.normalize` at the character level: resolves '.', '..'
and repeated separators, preserving a leading and a trailing separator. -/
def normalizeL (l : List Char) : List Char :=
  if l = [] then ['.']
  else
    let abs := headIsSlash l
    let trail := lastIsSlash l
    let core := joinSegs (normSegs (!abs) (splitSlash l))
    if core = [] then
      if abs then ['/'] else if trail then ['.', '/'] else ['.']
    else
      let core2 := if trail then core ++ ['/'] else core
      if abs then '/' :: core2 else core2

/-- Node `path.posix.normalize`. -/
def posixNormalize (s : String) : String := ⟨normalizeL s.data⟩

/-- Node `path.posix.isAbsolute`. -/
def posixIsAbsolute (s : String) : Bool := headIsSlash s.data

/-- Node `path.posix.join` restricted to two arguments: non-empty arguments
are joined with '/' and the result normalized; if everything is empty the
result is ".". -/
def posixJoin (a b : String) : String :=
  if a.data = [] then (if b.data = [] then "." else posixNormalize b)
  else if b.data = [] then posixNormalize a
  else posixNormalize (a ++ "/" ++ b)

/-- The right-to-left argument scan of Node `path.posix.resolve` for the call
`resolve(a, b)`: arguments are prepended until one is absolute, falling back
to the process working directory `cwd`; empty arguments are skipped. Returns
the concatenated raw path and whether an absolute argument was reached. -/
def resolveSeed (cwd a b : String) : String × Bool :=
  if posixIsAbsolute b then (b, true)
  else if a.data = [] then (cwd ++ "/" ++ b, posixIsAbsolute cwd)
  else if posixIsAbsolute a then (a ++ "/" ++ b, true)
  else (cwd ++ "/" ++ a ++ "/" ++ b, posixIsAbsolute cwd)

/-- Node `path.posix.resolve` on two arguments, with the process working
directory passed explicitly. -/
def posixResolve (cwd a b : String) : String :=
  let core := joinSegs (normSegs (!(resolveSeed cwd a b).2)
                (splitSlash (resolveSeed cwd a b).1.data))
  if (resolveSeed cwd a b).2 then ⟨'/' :: core⟩
  else if core = [] then "." else ⟨core⟩

/-- Whether a string starts with '~' (the home-directory marker tested by
`resolveBoardPath`). -/
def startsWithTilde (s : String) : Bool :=
  match s.data with
  | '~' :: _ => true
  | _ => false

/-- JavaScript `string.slice(1)`: the string without its first character. -/
def strTail (s : String) : String := ⟨s.data.drop 1⟩

/-! ## `resolveBoardPath` (ext-src/pathUtils.ts) -/

/-- The path resolver of ext-src/pathUtils.ts. `homedir` is `os.homedir()`
and `cwd` the process working directory (consulted by `path.resolve` only
when its other arguments are relative); `basePath = none` models the `null`
argument. Thrown errors become `Except.error` carrying the message. The
JavaScript truthiness test `if (basePath)` makes the empty string fall
through to the throw. -/
def resolveBoardPath (homedir cwd : String) (boardPath : String)
    (basePath : Option String) : Except String String :=
  if jsIsBlank boardPath then
    match basePath with
    | some b => if b = "" then .error "Empty path provided" else .ok b
    | none => .error "Empty path provided"
  else
    let expandedPath :=
      if startsWithTilde boardPath then posixJoin homedir (strTail boardPath)
      else boardPath
    if posixIsAbsolute expandedPath then .ok (posixNormalize expandedPath)
    else
      match basePath with
      | none =>
          .error ("Relative path \"" ++ boardPath ++
            "\" cannot be used in global settings. Use an absolute path or ~/ for home directory.")
      | some b => .ok (posixNormalize (posixResolve cwd b expandedPath))

/-- The specification's "normalized `basePathOrNull` joined with `rawPath`,
correctly resolving `..` segments that cross above `basePathOrNull`": the raw
path is appended to the base with a separator, '.', '..' and empty segments
are resolved, and the result is rendered as a canonical absolute path
(without a redundant trailing separator). -/
def boardJoin (base raw : String) : String :=
  ⟨'/' :: joinSegs (normSegs false (splitSlash (base.data ++ '/' :: raw.data)))⟩

/-- A fully resolved path segment: non-empty, not a dot segment, free of
separators. `normSegs false` (the absolute-path mode) produces only such
segments. -/
def goodSeg (s : List Char) : Prop :=
  s ≠ [] ∧ s ≠ ['.'] ∧ s ≠ ['.', '.'] ∧ '/' ∉ s

/-! ## Association lists with JavaScript `Map` semantics -/

/-- JavaScript `Map.get`: the value of the first (unique) entry with key `k`. -/
def alookup {β : Type} : List (String × β) → String → Option β
  | [], _ => none
  | p :: rest, k => if p.1 = k then some p.2 else alookup rest k

/-- Replace the value of every entry with key `k` (at most one in a
well-formed map). -/
def asetReplace {β : Type} : List (String × β) → String → β → List (String × β)
  | [], _, _ => []
  | p :: rest, k, v =>
      if p.1 = k then (k, v) :: asetReplace rest k v else p :: asetReplace rest k v

/-- JavaScript `Map.set`: update the existing entry in place, otherwise append
a new entry (preserving insertion order). -/
def aset {β : Type} (l : List (String × β)) (k : String) (v : β) : List (String × β) :=
  if (alookup l k).isSome then asetReplace l k v else l ++ [(k, v)]

/-- JavaScript `Map.delete`: remove the entry with key `k`. -/
def aerase {β : Type} : List (String × β) → String → List (String × β)
  | [], _ => []
  | p :: rest, k => if p.1 = k then aerase rest k else p :: aerase rest k

/-- The keys of an association list, in insertion order. -/
def akeys {β : Type} (l : List (String × β)) : List String := l.map Prod.fst

/-- JavaScript `Map.set` on a set of plain keys: keep the existing element or
append. -/
def listSet (l : List String) (k : String) : List String :=
  if k ∈ l then l else l ++ [k]

/-- JavaScript `Map.delete` on a set of plain keys. -/
def listRemove : List String → String → List String
  | [], _ => []
  | x :: rest, k => if x = k then listRemove rest k else x :: listRemove rest k

/-! ## The file-system world shared by the adapters -/

/-- Error conditions of the underlying Node `fs.promises` operations that the
adapters inspect (`error.code` values). `eother` stands for any further
failure (permissions and the like). -/
inductive FsErr where
  | eexist
  | enoent
  | eisdir
  | eother
deriving DecidableEq

/-- The real file system: files and directories are looked up under their
resolved ('.'/'..'-free) path, which models the path resolution the kernel
performs on every call. `mkdirFault`/`unlinkFault` inject the non-"already
exists"/non-"missing" failures (e.g. permissions) that the specification says
must be rethrown. -/
structure Disk where
  files : String → Option String
  dirs : String → Bool
  mkdirFault : String → Option FsErr
  unlinkFault : String → Option FsErr

/-- The mutable state outside the adapter object: the live editor buffers
(`_documentData` of each open document, keyed by the path its callbacks were
registered under; a registered getter reads and a registered setter writes
exactly its own document's buffer) and the real disk. -/
structure World where
  buffers : String → String
  disk : Disk

/-- Node `fs.promises.readFile` as the adapters use it. -/
def fsReadFile (d : Disk) (p : String) : Option String :=
  d.files (posixNormalize p)

/-- Whether reads of `p` on the real file system succeed (file or directory
present); models `fs.promises.access`. -/
def fsExists (d : Disk) (p : String) : Bool :=
  (d.files (posixNormalize p)).isSome || d.dirs (posixNormalize p)

/-- Node `fs.promises.writeFile`. -/
def fsWriteFile (d : Disk) (p data : String) : Disk :=
  { d with files := fun q => if q = posixNormalize p then some data else d.files q }

/-- Node `fs.promises.mkdir` (non-recursive): fails with EEXIST when anything
already exists at the path, may fail with an injected fault, and otherwise
records the new directory. -/
def fsMkdir (d : Disk) (p : String) : Except FsErr Disk :=
  if fsExists d p then .error .eexist
  else
    match d.mkdirFault p with
    | some e => .error e
    | none => .ok { d with dirs := fun q => if q = posixNormalize p then true else d.dirs q }

/-- Node `fs.promises.unlink`: ENOENT when nothing is there, EISDIR on a
directory, possibly an injected fault, otherwise removes the file. -/
def fsUnlink (d : Disk) (p : String) : Except FsErr Disk :=
  match d.files (posixNormalize p) with
  | none => if d.dirs (posixNormalize p) then .error .eisdir else .error .enoent
  | some _ =>
      match d.unlinkFault p with
      | some e => .error e
      | none => .ok { d with files := fun q => if q = posixNormalize p then none else d.files q }

/-! ## Multi-document adapter (src/unnamed/part_000 companion, part_002) -/

/-- The multi-document `VscodeFileSystemAdapter` (part_002): the constructor
registers the primary document's callback pair under `documentUri.fsPath`,
further documents are added by `addDocumentCallbacks`; `fileContentMap` and
`fileExistsMap` are the virtual-entry maps (keyed by normalized path, which
is how every write to them spells its key). Callback pairs are represented by
the key they were registered under, since the registered getter/setter of a
document read/write exactly the buffer of that document in the `World`. -/
structure AdapterMulti where
  documentUri : String
  docCallbackKeys : List String
  fileContentMap : List (String × String)
  fileExistsMap : List (String × Bool)
deriving DecidableEq

/-- The constructor of the multi-document adapter. -/
def AdapterMulti.new (uri : String) : AdapterMulti :=
  { documentUri := uri, docCallbackKeys := [uri], fileContentMap := [], fileExistsMap := [] }

/-- `addDocumentCallbacks`: register (or replace) the callback pair stored
under `documentUri.fsPath`. -/
def AdapterMulti.addDocumentCallbacks (a : AdapterMulti) (uri : String) : AdapterMulti :=
  { a with docCallbackKeys := listSet a.docCallbackKeys uri }

/-- `removeDocumentCallbacks`. -/
def AdapterMulti.removeDocumentCallbacks (a : AdapterMulti) (uri : String) : AdapterMulti :=
  { a with docCallbackKeys := listRemove a.docCallbackKeys uri }

/-- `readFile` of the multi-document adapter: a path whose normalized form has
a registered callback pair is answered from that document's getter; otherwise
the virtual content map and finally the real disk are consulted (any
underlying failure is rewrapped as an ENOENT error). -/
def AdapterMulti.readFile (a : AdapterMulti) (w : World) (p : String) :
    Except FsErr String :=
  let np := posixNormalize p
  if np ∈ a.docCallbackKeys then .ok (w.buffers np)
  else
    match alookup a.fileContentMap np with
    | some c => .ok c
    | none =>
        match fsReadFile w.disk p with
        | some c => .ok c
        | none => .error .enoent

/-- `access` of the multi-document adapter: registered paths always succeed,
then the virtual existence map is consulted, then the real disk. -/
def AdapterMulti.access (a : AdapterMulti) (w : World) (p : String) :
    Except FsErr Unit :=
  let np := posixNormalize p
  if np ∈ a.docCallbackKeys then .ok ()
  else
    match alookup a.fileExistsMap np with
    | some ex => if ex then .ok () else .error .enoent
    | none => if fsExists w.disk p then .ok () else .error .enoent

/-- `writeFile` of the multi-document adapter: a registered path goes through
the document's setter (no disk traffic); any other path is written straight
to the real file system. -/
def AdapterMulti.writeFile (a : AdapterMulti) (w : World) (p data : String) : World :=
  let np := posixNormalize p
  if np ∈ a.docCallbackKeys then
    { w with buffers := fun q => if q = np then data else w.buffers q }
  else
    { w with disk := fsWriteFile w.disk p data }

/-- The `mkdir` wrapper shared by the disk-backed adapters: delegate to the
real file system and swallow only the EEXIST failure. -/
def mkdirReal (w : World) (p : String) : Except FsErr World :=
  match fsMkdir w.disk p with
  | .ok d => .ok { w with disk := d }
  | .error .eexist => .ok w
  | .error e => .error e

/-- The `unlink` wrapper shared by the disk-backed adapters: delegate to the
real file system and swallow only the ENOENT failure. -/
def unlinkReal (w : World) (p : String) : Except FsErr World :=
  match fsUnlink w.disk p with
  | .ok d => .ok { w with disk := d }
  | .error .enoent => .ok w
  | .error e => .error e

/-! ## Main-index adapter (src/src/VscodeFileSystemAdapter.ts, part_003) -/

/-- The single-document `VscodeFileSystemAdapter` variants
(src/src/VscodeFileSystemAdapter.ts is disk-backed, src/unnamed/part_003 is
fully virtual); both share this state. The constructor stores the board-index
document's callbacks, represented by `documentUri` as for `AdapterMulti`. -/
structure AdapterMain where
  documentUri : String
  fileContentMap : List (String × String)
  fileExistsMap : List (String × Bool)
deriving DecidableEq

/-- `isMainIndexFile`: both sides of the comparison are normalized. -/
def AdapterMain.isMainIndexFile (a : AdapterMain) (np : String) : Bool :=
  np = posixNormalize a.documentUri

/-- `readFile` of the main-index variants (identical in both). -/
def AdapterMain.readFile (a : AdapterMain) (w : World) (p : String) :
    Except FsErr String :=
  let np := posixNormalize p
  if a.isMainIndexFile np then .ok (w.buffers a.documentUri)
  else
    match alookup a.fileContentMap np with
    | some c => .ok c
    | none =>
        match fsReadFile w.disk p with
        | some c => .ok c
        | none => .error .enoent

/-- `access` of the main-index variants (identical in both). -/
def AdapterMain.access (a : AdapterMain) (w : World) (p : String) :
    Except FsErr Unit :=
  let np := posixNormalize p
  if a.isMainIndexFile np then .ok ()
  else
    match alookup a.fileExistsMap np with
    | some ex => if ex then .ok () else .error .enoent
    | none => if fsExists w.disk p then .ok () else .error .enoent

/-- `writeFile` of the disk-backed main-index variant
(src/src/VscodeFileSystemAdapter.ts): the main index document goes through
the setter, every other path is written to the real file system. -/
def AdapterMain.writeFileDisk (a : AdapterMain) (w : World) (p data : String) : World :=
  let np := posixNormalize p
  if a.isMainIndexFile np then
    { w with buffers := fun q => if q = a.documentUri then data else w.buffers q }
  else
    { w with disk := fsWriteFile w.disk p data }

/-- `writeFile` of the fully virtual variant (part_003): the main index
document goes through the setter, every other path is stored in the
virtual-entry maps only. -/
def AdapterMain.writeFileVirt (a : AdapterMain) (w : World) (p data : String) :
    AdapterMain × World :=
  let np := posixNormalize p
  if a.isMainIndexFile np then
    (a, { w with buffers := fun q => if q = a.documentUri then data else w.buffers q })
  else
    ({ a with fileContentMap := aset a.fileContentMap np data,
              fileExistsMap := aset a.fileExistsMap np true }, w)

/-- `mkdir` of the fully virtual variant: mark the path as existing, never
touching disk and never failing. -/
def AdapterMain.mkdirVirt (a : AdapterMain) (p : String) : AdapterMain :=
  { a with fileExistsMap := aset a.fileExistsMap (posixNormalize p) true }

/-- `unlink` of the fully virtual variant: drop the virtual entry, never
failing. -/
def AdapterMain.unlinkVirt (a : AdapterMain) (p : String) : AdapterMain :=
  { a with fileContentMap := aerase a.fileContentMap (posixNormalize p),
           fileExistsMap := aerase a.fileExistsMap (posixNormalize p) }

/-- JavaScript `pattern.lastIndexOf('/')` split: the part before the last '/'
and the part after it (the whole string and "" .. when no '/' occurs, the
substring-of-negative-index convention collapsing to the empty directory). -/
def splitAtLastSlash (s : String) : String × String :=
  let rev := s.data.reverse
  let fileRev := rev.takeWhile (fun c => decide (c ≠ '/'))
  let rest := rev.dropWhile (fun c => decide (c ≠ '/'))
  if rest = [] then ("", s) else (⟨(rest.drop 1).reverse⟩, ⟨fileRev.reverse⟩)

/-- JavaScript `String.startsWith`. -/
def strStartsWith (s pre : String) : Bool :=
  decide (s.data.take pre.data.length = pre.data)

/-- JavaScript `String.endsWith`. -/
def strEndsWith (s suf : String) : Bool :=
  decide (s.data.reverse.take suf.data.length = suf.data.reverse)

/-- `glob` of the fully virtual variant (part_003): for a `*.md` file pattern
the virtual entries whose path extends the pattern's directory and ends in
".md" are collected first; then the real glob results (`realGlob` is the
`glob-promise` oracle) are appended, skipping paths already present in the
virtual content map. -/
def AdapterMain.globVirt (a : AdapterMain) (realGlob : String → List String)
    (pattern : String) : List String :=
  let dir := (splitAtLastSlash pattern).1
  let filePattern := (splitAtLastSlash pattern).2
  let virtuals :=
    if filePattern = "*.md" then
      (akeys a.fileContentMap).filter
        (fun fp => strStartsWith fp (posixNormalize dir) && strEndsWith fp ".md")
    else []
  virtuals ++ (realGlob pattern).filter
    (fun r => !(alookup a.fileContentMap (posixNormalize r)).isSome)

/-- Glob matching as the specification understands "paths matching the
pattern", for patterns whose final segment is `*`-headed (e.g. `dir/*.md`):
the path must be directly inside the pattern's directory and its final
segment must end with the pattern's suffix; for a star-free final segment the
names must coincide. -/
def globMatchStar (pattern p : String) : Bool :=
  let dir := (splitAtLastSlash pattern).1
  let fp := (splitAtLastSlash pattern).2
  let pdir := (splitAtLastSlash p).1
  let pn := (splitAtLastSlash p).2
  decide (pdir = dir) &&
    (match fp.data with
     | '*' :: sufChars => strEndsWith pn ⟨sufChars⟩
     | _ => decide (pn = fp))

/-! ## Board-scoped instance manager (src/unnamed/part_000) -/

/-- A `Kanbn` task-store object as the manager allocates it: its JavaScript
object identity (`id`, drawn from a process-wide allocation counter), the
board path it was constructed for, and the identity of the adapter it is
bound to. -/
structure KanbnObj where
  id : Nat
  boardPath : String
  adapterId : Nat
deriving DecidableEq

/-- A `VscodeFileSystemAdapter` object as the manager sees it: its object
identity and the keys of its document-callback map (the constructor seeds the
primary document, `addDocumentCallbacks`/`removeDocumentCallbacks` maintain
the rest). -/
structure AdapterHandle where
  id : Nat
  callbackKeys : List String
deriving DecidableEq

/-- The `DocumentAdapter` record of KanbnGlobalManager: the shared adapter
plus the manager-level cleanup-callback map, keyed by `documentUri.fsPath`
(each stored closure removes exactly its key from the adapter, so the keys
determine the closures). -/
structure DocumentAdapterInfo where
  adapter : AdapterHandle
  documentCallbacks : List String
deriving DecidableEq

/-- The state of the `KanbnGlobalManager` singleton: the two board-keyed maps
and the allocation counter handing out object identities. -/
structure ManagerState where
  kanbnInstances : List (String × KanbnObj)
  documentAdapters : List (String × DocumentAdapterInfo)
  nextId : Nat
deriving DecidableEq

/-- The freshly constructed manager. -/
def emptyManager : ManagerState := ⟨[], [], 0⟩

/-- The first half of `getKanbnForDocument`: get or create the board's
`DocumentAdapter` record, creating a fresh adapter (constructor registers the
acquiring document as primary) or registering the document's callbacks on the
existing adapter. Returns the record together with the updated state. -/
def acquirePhase1 (s : ManagerState) (docKey boardPath : String) :
    DocumentAdapterInfo × ManagerState :=
  match alookup s.documentAdapters boardPath with
  | none =>
      let adapter : AdapterHandle := { id := s.nextId, callbackKeys := [docKey] }
      let info : DocumentAdapterInfo := { adapter := adapter, documentCallbacks := [] }
      (info, { s with documentAdapters := aset s.documentAdapters boardPath info,
                      nextId := s.nextId + 1 })
  | some info0 =>
      let info : DocumentAdapterInfo :=
        { info0 with adapter :=
            { info0.adapter with callbackKeys := listSet info0.adapter.callbackKeys docKey } }
      (info, { s with documentAdapters := aset s.documentAdapters boardPath info })

/-- `KanbnGlobalManager.getKanbnForDocument`: after the adapter phase the
document's cleanup callback is stored, then the board's Kanbn instance is
returned, constructing a fresh one (bound to the board's adapter) only when
none is registered. JavaScript mutates the shared record in place; here the
updated record is written back to the map, which yields the same lookups. -/
def getKanbnForDocument (s : ManagerState) (docKey boardPath : String) :
    KanbnObj × ManagerState :=
  let r1 := acquirePhase1 s docKey boardPath
  let info2 : DocumentAdapterInfo :=
    { r1.1 with documentCallbacks := listSet r1.1.documentCallbacks docKey }
  let s2 : ManagerState :=
    { r1.2 with documentAdapters := aset r1.2.documentAdapters boardPath info2 }
  match alookup s2.kanbnInstances boardPath with
  | some kanbn => (kanbn, s2)
  | none =>
      let kanbn : KanbnObj :=
        { id := s2.nextId, boardPath := boardPath, adapterId := info2.adapter.id }
      (kanbn, { s2 with kanbnInstances := aset s2.kanbnInstances boardPath kanbn,
                        nextId := s2.nextId + 1 })

/-- `KanbnGlobalManager.cleanupDocument`: run the document's stored cleanup
closure (which removes its callbacks from the adapter), drop the closure, and
when no documents remain delete both the adapter record and the Kanbn
instance for the board. -/
def cleanupDocument (s : ManagerState) (docKey boardPath : String) : ManagerState :=
  match alookup s.documentAdapters boardPath with
  | none => s
  | some info =>
      let info1 : DocumentAdapterInfo :=
        if docKey ∈ info.documentCallbacks then
          { adapter := { info.adapter with
                         callbackKeys := listRemove info.adapter.callbackKeys docKey },
            documentCallbacks := listRemove info.documentCallbacks docKey }
        else info
      if info1.documentCallbacks = [] then
        { s with documentAdapters := aerase s.documentAdapters boardPath,
                 kanbnInstances := aerase s.kanbnInstances boardPath }
      else
        { s with documentAdapters := aset s.documentAdapters boardPath info1 }

/-- The operations the editor lifecycle drives against the manager. -/
inductive MgrOp where
  | acquire (docKey boardPath : String)
  | release (docKey boardPath : String)
deriving DecidableEq

/-- Apply one lifecycle operation to the manager state. -/
def applyOp (s : ManagerState) : MgrOp → ManagerState
  | .acquire d B => (getKanbnForDocument s d B).2
  | .release d B => cleanupDocument s d B

/-- Run a sequence of lifecycle operations. -/
def runOps (s : ManagerState) : List MgrOp → ManagerState
  | [] => s
  | op :: rest => runOps (applyOp s op) rest

/-- Whether the manager holds a registration for a board. -/
def isRegistered (s : ManagerState) (boardPath : String) : Bool :=
  (alookup s.documentAdapters boardPath).isSome

/-- The bookkeeping invariant of the manager: board keys are unique in both
maps, and every allocated object identity lies below the allocation counter. -/
def MgrInv (s : ManagerState) : Prop :=
  (akeys s.kanbnInstances).Nodup ∧
  (akeys s.documentAdapters).Nodup ∧
  (∀ pr ∈ s.kanbnInstances, pr.2.id < s.nextId) ∧
  (∀ pr ∈ s.documentAdapters, pr.2.adapter.id < s.nextId)

instance (s : ManagerState) : Decidable (MgrInv s) := by
  unfold MgrInv; infer_instance

/-! ## Document edit coordinator (`makeEdit` of part_001 and
src/src/KanbnTaskEditorProvider.ts) -/

/-- A change record as fired on the document-change event: a label and the
undo/redo actions the editor host may later invoke on the document. -/
structure ChangeRecord (W : Type) where
  label : String
  undo : W → W
  redo : W → W

/-- An open custom document: its serialized byte buffer `documentData`
(`Uint8Array` bytes as naturals) plus everything else the edit callback may
touch (disk, task-store caches), abstracted as `env`. -/
structure EditorDoc (E : Type) where
  documentData : List Nat
  env : E

/-- `makeEdit`: snapshot the byte buffer, run the edit callback to
completion, snapshot again, and fire exactly one document-change event whose
`undo` restores the pre-edit bytes and whose `redo` restores the post-edit
bytes (the `Uint8Array` copies taken in the source become immutable values
here; the webview-refresh callback invoked after undo/redo does not touch the
buffer and is omitted). The returned list collects the fired events. -/
def makeEdit {E : Type} (label : String) (editCallback : EditorDoc E → EditorDoc E)
    (d : EditorDoc E) : EditorDoc E × List (ChangeRecord (EditorDoc E)) :=
  let oldDocumentData := d.documentData
  let d2 := editCallback d
  let newDocumentData := d2.documentData
  (d2, [{ label := label,
          undo := fun x => { x with documentData := oldDocumentData },
          redo := fun x => { x with documentData := newDocumentData } }])

/-! ## Concrete inputs used by counterexamples and witnesses -/

/-- A multi-document adapter whose primary document was registered under a
path containing a redundant "." segment, as constructed by
`new VscodeFileSystemAdapter(documentUri, ...)` for that fsPath. -/
def exAdapter : AdapterMulti := AdapterMulti.new "/board/./index.md"

/-- A world in which the document registered at "/board/./index.md" has
buffer content "BUFFER" while the on-disk file at that location holds
"DISK". -/
def exWorld : World :=
  { buffers := fun _ => "BUFFER",
    disk := { files := fun q => if q = "/board/index.md" then some "DISK" else none,
              dirs := fun _ => false,
              mkdirFault := fun _ => none,
              unlinkFault := fun _ => none } }

/-- A fully virtual adapter holding one in-memory entry "/b/a.txt". -/
def exMainAdapter : AdapterMain :=
  { documentUri := "/b/.kanbn/index.md",
    fileContentMap := [("/b/a.txt", "X")],
    fileExistsMap := [] }

/-- A manager state with one board registration whose only live document is
"/board/.kanbn/tasks/a.md" (the state reached by a single acquire on a fresh
manager). -/
def exManager : ManagerState :=
  { kanbnInstances := [("/board", { id := 1, boardPath := "/board", adapterId := 0 })],
    documentAdapters :=
      [("/board", { adapter := { id := 0, callbackKeys := ["/board/.kanbn/tasks/a.md"] },
                    documentCallbacks := ["/board/.kanbn/tasks/a.md"] })],
    nextId := 2 }

/-- A concrete document for the `makeEdit` witnesses. -/
def exDoc : EditorDoc Unit := { documentData := [1, 2, 3], env := () }

/-- A concrete edit callback replacing the buffer bytes. -/
def exEdit : EditorDoc Unit → EditorDoc Unit :=
  fun d => { d with documentData := [9, 9] }

/-- The single change record fired by `makeEdit "edit" exEdit exDoc`. -/
def exRec : ChangeRecord (EditorDoc Unit) :=
  ((makeEdit "edit" exEdit exDoc).2).head (by simp [makeEdit])

/-- The single change record fired by the no-op edit on `exDoc`. -/
def exRecId : ChangeRecord (EditorDoc Unit) :=
  ((makeEdit "noop" id exDoc).2).head (by simp [makeEdit])

/-! ## Lemmas about the association-list operations -/

theorem alookup_append {β : Type} (l1 l2 : List (String × β)) (k : String) :
    alookup (l1 ++ l2) k =
      match alookup l1 k with
      | some v => some v
      | none => alookup l2 k := by
  induction l1 with
  | nil => simp [alookup]
  | cons p rest ih =>
      by_cases h : p.1 = k <;> simp [alookup, h, ih]

theorem alookup_asetReplace_self {β : Type} (l : List (String × β)) (k : String)
    (v w : β) (h : alookup l k = some w) : alookup (asetReplace l k v) k = some v := by
  induction l with
  | nil => simp [alookup] at h
  | cons p rest ih =>
      by_cases hp : p.1 = k
      · simp [asetReplace, hp, alookup]
      · simp [alookup, hp] at h
        simp [asetReplace, hp, alookup, ih h]

theorem alookup_asetReplace_ne {β : Type} (l : List (String × β)) (k k' : String)
    (v : β) (h : k' ≠ k) : alookup (asetReplace l k v) k' = alookup l k' := by
  induction l with
  | nil => simp [asetReplace]
  | cons p rest ih =>
      by_cases hp : p.1 = k
      · simp [asetReplace, hp, alookup, Ne.symm h, ih, hp ▸ Ne.symm h]
      · simp [asetReplace, hp, alookup, ih]

theorem asetReplace_of_none {β : Type} (l : List (String × β)) (k : String) (v : β)
    (h : alookup l k = none) : asetReplace l k v = l := by
  induction l with
  | nil => rfl
  | cons p rest ih =>
      by_cases hp : p.1 = k
      · simp [alookup, hp] at h
      · simp [alookup, hp] at h
        simp [asetReplace, hp, ih h]

theorem alookup_aset_self {β : Type} (l : List (String × β)) (k : String) (v : β) :
    alookup (aset l k v) k = some v := by
  unfold aset
  by_cases h : (alookup l k).isSome
  · obtain ⟨w, hw⟩ := Option.isSome_iff_exists.mp h
    simp [h, alookup_asetReplace_self l k v w hw]
  · have hn : alookup l k = none := Option.not_isSome_iff_eq_none.mp h
    simp [h, alookup_append, hn, alookup]

theorem alookup_aset_ne {β : Type} (l : List (String × β)) (k k' : String) (v : β)
    (h : k' ≠ k) : alookup (aset l k v) k' = alookup l k' := by
  unfold aset
  by_cases hs : (alookup l k).isSome
  · simp [hs, alookup_asetReplace_ne l k k' v h]
  · simp [hs, alookup_append, alookup, Ne.symm h]
    cases hl : alookup l k' <;> simp

theorem alookup_aerase_self {β : Type} (l : List (String × β)) (k : String) :
    alookup (aerase l k) k = none := by
  induction l with
  | nil => rfl
  | cons p rest ih =>
      by_cases hp : p.1 = k <;> simp [aerase, hp, alookup, ih]

theorem alookup_aerase_ne {β : Type} (l : List (String × β)) (k k' : String)
    (h : k' ≠ k) : alookup (aerase l k) k' = alookup l k' := by
  induction l with
  | nil => rfl
  | cons p rest ih =>
      by_cases hp : p.1 = k
      · simp [aerase, hp, alookup, Ne.symm h, ih]
      · simp [aerase, hp, alookup, ih]

theorem mem_of_alookup {β : Type} (l : List (String × β)) (k : String) (v : β)
    (h : alookup l k = some v) : (k, v) ∈ l := by
  induction l with
  | nil => simp [alookup] at h
  | cons p rest ih =>
      by_cases hp : p.1 = k
      · simp [alookup, hp] at h
        have hp2 : p = (k, v) := by
          cases p with
          | mk a b => simp_all
        rw [← hp2]
        exact List.mem_cons_self _ _
      · simp [alookup, hp] at h
        exact List.mem_cons_of_mem _ (ih h)

theorem mem_asetReplace {β : Type} (l : List (String × β)) (k : String) (v : β)
    (pr : String × β) (h : pr ∈ asetReplace l k v) : pr = (k, v) ∨ pr ∈ l := by
  induction l with
  | nil => simp [asetReplace] at h
  | cons p rest ih =>
      by_cases hp : p.1 = k
      · simp [asetReplace, hp] at h
        rcases h with h | h
        · exact Or.inl h
        · rcases ih h with h' | h'
          · exact Or.inl h'
          · exact Or.inr (List.mem_cons_of_mem _ h')
      · simp [asetReplace, hp] at h
        rcases h with h | h
        · exact Or.inr (by simp [h])
        · rcases ih h with h' | h'
          · exact Or.inl h'
          · exact Or.inr (List.mem_cons_of_mem _ h')

theorem mem_aset {β : Type} (l : List (String × β)) (k : String) (v : β)
    (pr : String × β) (h : pr ∈ aset l k v) : pr = (k, v) ∨ pr ∈ l := by
  unfold aset at h
  by_cases hs : (alookup l k).isSome
  · simp [hs] at h
    exact mem_asetReplace l k v pr h
  · simp [hs] at h
    rcases h with h | h
    · exact Or.inr h
    · exact Or.inl h

theorem mem_aerase {β : Type} (l : List (String × β)) (k : String)
    (pr : String × β) (h : pr ∈ aerase l k) : pr ∈ l := by
  induction l with
  | nil => simp [aerase] at h
  | cons p rest ih =>
      by_cases hp : p.1 = k
      · simp [aerase, hp] at h
        exact List.mem_cons_of_mem _ (ih h)
      · simp [aerase, hp] at h
        rcases h with h | h
        · simp [h]
        · exact List.mem_cons_of_mem _ (ih h)

theorem akeys_asetReplace {β : Type} (l : List (String × β)) (k : String) (v : β) :
    akeys (asetReplace l k v) = akeys l := by
  induction l with
  | nil => rfl
  | cons p rest ih =>
      by_cases hp : p.1 = k
      · simp only [asetReplace, hp, if_true, ite_true, akeys, List.map_cons]
        exact congrArg₂ _ rfl (by simpa [akeys] using ih)
      · simp only [asetReplace, hp, ite_false, if_false, akeys, List.map_cons]
        exact congrArg₂ _ rfl (by simpa [akeys] using ih)

theorem alookup_eq_none_iff {β : Type} (l : List (String × β)) (k : String) :
    alookup l k = none ↔ k ∉ akeys l := by
  induction l with
  | nil => simp [alookup, akeys]
  | cons p rest ih =>
      by_cases hp : p.1 = k
      · simp [alookup, hp, akeys]
      · simp [alookup, hp, akeys, ih, Ne.symm hp]

theorem nodup_akeys_aset {β : Type} (l : List (String × β)) (k : String) (v : β)
    (h : (akeys l).Nodup) : (akeys (aset l k v)).Nodup := by
  unfold aset
  by_cases hs : (alookup l k).isSome
  · simpa [hs, akeys_asetReplace] using h
  · have hn : alookup l k = none := Option.not_isSome_iff_eq_none.mp hs
    have hk : k ∉ akeys l := (alookup_eq_none_iff l k).mp hn
    simp only [hs, akeys, if_false, ite_false, List.map_append, List.map_cons,
      List.map_nil, Bool.false_eq_true]
    rw [List.nodup_append]
    refine ⟨by simpa [akeys] using h, by simp, ?_⟩
    intro x hx hx'
    simp at hx'
    exact hk (hx' ▸ (by simpa [akeys] using hx))

theorem akeys_aerase_sublist {β : Type} (l : List (String × β)) (k : String) :
    List.Sublist (akeys (aerase l k)) (akeys l) := by
  induction l with
  | nil => simp [aerase, akeys]
  | cons p rest ih =>
      by_cases hp : p.1 = k
      · simp only [aerase, hp, if_pos, akeys, List.map_cons]
        exact List.Sublist.cons _ (by simpa [akeys] using ih)
      · simp only [aerase, hp, if_neg, akeys, List.map_cons, ite_false]
        exact List.Sublist.cons₂ _ (by simpa [akeys] using ih)

theorem nodup_akeys_aerase {β : Type} (l : List (String × β)) (k : String)
    (h : (akeys l).Nodup) : (akeys (aerase l k)).Nodup :=
  List.Nodup.sublist (akeys_aerase_sublist l k) h

theorem aerase_of_none {β : Type} (l : List (String × β)) (k : String)
    (h : alookup l k = none) : aerase l k = l := by
  induction l with
  | nil => rfl
  | cons p rest ih =>
      by_cases hp : p.1 = k
      · simp [alookup, hp] at h
      · simp [alookup, hp] at h
        simp [aerase, hp, ih h]

theorem asetReplace_append {β : Type} (l1 l2 : List (String × β)) (k : String) (v : β) :
    asetReplace (l1 ++ l2) k v = asetReplace l1 k v ++ asetReplace l2 k v := by
  induction l1 with
  | nil => rfl
  | cons p rest ih =>
      by_cases hp : p.1 = k <;> simp [asetReplace, hp, ih]

theorem asetReplace_asetReplace {β : Type} (l : List (String × β)) (k : String)
    (v w : β) : asetReplace (asetReplace l k v) k w = asetReplace l k w := by
  induction l with
  | nil => rfl
  | cons p rest ih =>
      by_cases hp : p.1 = k <;> simp [asetReplace, hp, ih]

theorem aset_aset {β : Type} (l : List (String × β)) (k : String) (v w : β) :
    aset (aset l k v) k w = aset l k w := by
  unfold aset
  by_cases hs : (alookup l k).isSome
  · obtain ⟨u, hu⟩ := Option.isSome_iff_exists.mp hs
    simp [hs, alookup_asetReplace_self l k v u hu, asetReplace_asetReplace]
  · have hn : alookup l k = none := Option.not_isSome_iff_eq_none.mp hs
    simp [hs, alookup_append, hn, alookup, asetReplace_append,
      asetReplace_of_none l k w hn, asetReplace]

theorem listRemove_self_singleton (d : String) : listRemove [d] d = [] := by
  simp [listRemove]

theorem mem_listSet_self (l : List String) (k : String) : k ∈ listSet l k := by
  unfold listSet
  by_cases h : k ∈ l <;> simp [h]

theorem listSet_ne_nil (l : List String) (k : String) : listSet l k ≠ [] := by
  intro h
  exact absurd (h ▸ mem_listSet_self l k) (List.not_mem_nil k)

/-! ## Lemmas about the path model -/

theorem string_data_append (a b : String) : (a ++ b).data = a.data ++ b.data := by
  cases a with
  | mk da =>
      cases b with
      | mk db => rfl

theorem mem_splitSlashAux_no_slash (l : List Char) : ∀ (cur : List Char), '/' ∉ cur →
    ∀ p ∈ splitSlashAux l cur, '/' ∉ p := by
  induction l with
  | nil =>
      intro cur h p hp
      simp [splitSlashAux] at hp
      subst hp
      simpa using h
  | cons c rest ih =>
      intro cur h p hp
      by_cases hc : c = '/'
      · rw [splitSlashAux, if_pos hc] at hp
        rcases List.mem_cons.mp hp with hp | hp
        · subst hp; simpa using h
        · exact ih [] (by simp) p hp
      · rw [splitSlashAux, if_neg hc] at hp
        refine ih (c :: cur) ?_ p hp
        intro hm
        rcases List.mem_cons.mp hm with h1 | h1
        · exact hc h1.symm
        · exact h h1

theorem splitSlash_no_slash (l : List Char) : ∀ p ∈ splitSlash l, '/' ∉ p :=
  mem_splitSlashAux_no_slash l [] (by simp)

theorem splitSlashAux_append (x : List Char) (r : List Char) : ∀ (cur : List Char),
    '/' ∉ x → splitSlashAux (x ++ r) cur = splitSlashAux r (x.reverse ++ cur) := by
  induction x with
  | nil => intro cur _; simp
  | cons c x2 ih =>
      intro cur h
      have hc : c ≠ '/' := fun hh => h (by simp [hh])
      rw [List.cons_append, splitSlashAux, if_neg hc,
        ih (c :: cur) (fun hm => h (List.mem_cons_of_mem _ hm))]
      simp

theorem splitSlash_of_no_slash (x : List Char) (h : '/' ∉ x) : splitSlash x = [x] := by
  have h2 := splitSlashAux_append x [] [] h
  simp only [List.append_nil] at h2
  rw [splitSlash, h2]
  simp [splitSlashAux]

theorem splitSlash_append_slash (x r : List Char) (h : '/' ∉ x) :
    splitSlash (x ++ '/' :: r) = x :: splitSlash r := by
  have h2 := splitSlashAux_append x ('/' :: r) [] h
  rw [splitSlash, h2, splitSlashAux, if_pos rfl]
  simp [splitSlash]

theorem splitSlash_cons_slash (r : List Char) :
    splitSlash ('/' :: r) = [] :: splitSlash r := by
  rw [splitSlash, splitSlashAux, if_pos rfl]
  rfl

theorem splitSlash_joinSegs (segs : List (List Char)) (hne : segs ≠ [])
    (h : ∀ p ∈ segs, '/' ∉ p) : splitSlash (joinSegs segs) = segs := by
  induction segs with
  | nil => exact absurd rfl hne
  | cons x rest ih =>
      cases rest with
      | nil => simpa [joinSegs] using splitSlash_of_no_slash x (h x (by simp))
      | cons y rest2 =>
          rw [joinSegs, splitSlash_append_slash x _ (h x (by simp)),
            ih (by simp) (fun p hp => h p (List.mem_cons_of_mem _ hp))]

theorem normStep_false_good (acc : List (List Char)) (seg : List Char)
    (hacc : ∀ x ∈ acc, goodSeg x) (hs : '/' ∉ seg) :
    ∀ x ∈ normStep false acc seg, goodSeg x := by
  intro x hx
  unfold normStep at hx
  by_cases h1 : seg = [] ∨ seg = ['.']
  · rw [if_pos h1] at hx
    exact hacc x hx
  · rw [if_neg h1] at hx
    by_cases h2 : seg = ['.', '.']
    · rw [if_pos h2] at hx
      cases acc with
      | nil => simp at hx
      | cons top rest =>
          have htop := hacc top (List.mem_cons_self _ _)
          simp only [htop.2.2.1, ite_false, if_false, if_neg] at hx
          exact hacc x (List.mem_cons_of_mem _ hx)
    · rw [if_neg h2] at hx
      rcases List.mem_cons.mp hx with hx | hx
      · subst hx
        push_neg at h1
        exact ⟨h1.1, h1.2, h2, hs⟩
      · exact hacc x hx

theorem foldl_normStep_false_good (segs : List (List Char)) : ∀ (acc : List (List Char)),
    (∀ p ∈ segs, '/' ∉ p) → (∀ x ∈ acc, goodSeg x) →
    ∀ x ∈ segs.foldl (normStep false) acc, goodSeg x := by
  induction segs with
  | nil =>
      intro acc _ hacc x hx
      simp at hx
      exact hacc x hx
  | cons s rest ih =>
      intro acc hsegs hacc x hx
      simp only [List.foldl_cons] at hx
      exact ih (normStep false acc s)
        (fun p hp => hsegs p (List.mem_cons_of_mem _ hp))
        (normStep_false_good acc s hacc (hsegs s (List.mem_cons_self _ _))) x hx

theorem normSegs_false_good (segs : List (List Char))
    (hsegs : ∀ p ∈ segs, '/' ∉ p) : ∀ x ∈ normSegs false segs, goodSeg x := by
  intro x hx
  unfold normSegs at hx
  exact foldl_normStep_false_good segs [] hsegs (by simp) x (List.mem_reverse.mp hx)

theorem foldl_normStep_of_good (ar : Bool) (segs : List (List Char)) :
    ∀ (acc : List (List Char)), (∀ x ∈ segs, goodSeg x) →
    segs.foldl (normStep ar) acc = segs.reverse ++ acc := by
  induction segs with
  | nil => intro acc _; simp
  | cons s rest ih =>
      intro acc h
      have hg := h s (List.mem_cons_self _ _)
      have hstep : normStep ar acc s = s :: acc := by
        unfold normStep
        rw [if_neg (not_or.mpr ⟨hg.1, hg.2.1⟩), if_neg hg.2.2.1]
      simp only [List.foldl_cons, hstep]
      rw [ih (s :: acc) (fun x hx => h x (List.mem_cons_of_mem _ hx))]
      simp

theorem normSegs_of_good (ar : Bool) (segs : List (List Char))
    (h : ∀ x ∈ segs, goodSeg x) : normSegs ar segs = segs := by
  unfold normSegs
  rw [foldl_normStep_of_good ar segs [] h]
  simp

theorem normSegs_cons_nil (ar : Bool) (segs : List (List Char)) :
    normSegs ar ([] :: segs) = normSegs ar segs := by
  unfold normSegs
  simp [normStep]

theorem lastIsSlash_cons (c : Char) (rest : List Char) (h : rest ≠ []) :
    lastIsSlash (c :: rest) = lastIsSlash rest := by
  cases rest with
  | nil => exact absurd rfl h
  | cons d rest2 => rfl

theorem lastIsSlash_append (a b : List Char) (h : b ≠ []) :
    lastIsSlash (a ++ b) = lastIsSlash b := by
  induction a with
  | nil => rfl
  | cons c a2 ih =>
      rw [List.cons_append,
        lastIsSlash_cons c (a2 ++ b) (fun hh => h (List.append_eq_nil.mp hh).2), ih]

theorem lastIsSlash_of_no_slash (l : List Char) (h : '/' ∉ l) :
    lastIsSlash l = false := by
  induction l with
  | nil => rfl
  | cons c rest ih =>
      cases rest with
      | nil =>
          have hc : c ≠ '/' := fun hh => h (by simp [hh])
          simp [lastIsSlash, hc]
      | cons d rest2 =>
          rw [lastIsSlash_cons _ _ (by simp)]
          exact ih (fun hm => h (List.mem_cons_of_mem _ hm))

theorem joinSegs_good (segs : List (List Char)) (hne : segs ≠ [])
    (h : ∀ x ∈ segs, goodSeg x) :
    joinSegs segs ≠ [] ∧ lastIsSlash (joinSegs segs) = false := by
  induction segs with
  | nil => exact absurd rfl hne
  | cons x rest ih =>
      cases rest with
      | nil =>
          have hg := h x (List.mem_cons_self _ _)
          exact ⟨by simpa [joinSegs] using hg.1,
            by simpa [joinSegs] using lastIsSlash_of_no_slash x hg.2.2.2⟩
      | cons y rest2 =>
          have ihr := ih (by simp) (fun p hp => h p (List.mem_cons_of_mem _ hp))
          constructor
          · rw [joinSegs]
            simp
          · rw [joinSegs, lastIsSlash_append x ('/' :: joinSegs (y :: rest2)) (by simp),
              lastIsSlash_cons _ _ ihr.1]
            exact ihr.2

theorem normalizeL_abs_canonical (segs : List (List Char))
    (h : ∀ x ∈ segs, goodSeg x) :
    normalizeL ('/' :: joinSegs segs) = '/' :: joinSegs segs := by
  cases hsegs : segs with
  | nil => decide
  | cons x rest =>
      rw [← hsegs]
      have hne : segs ≠ [] := by rw [hsegs]; simp
      have hj := joinSegs_good segs hne h
      have hnoslash : ∀ p ∈ segs, '/' ∉ p := fun p hp => (h p hp).2.2.2
      unfold normalizeL
      rw [if_neg (by simp : ('/' :: joinSegs segs) ≠ [])]
      simp only [headIsSlash, splitSlash_cons_slash,
        lastIsSlash_cons '/' (joinSegs segs) hj.1, hj.2,
        splitSlash_joinSegs segs hne hnoslash, normSegs_cons_nil,
        normSegs_of_good _ segs h]
      rw [if_neg hj.1]
      simp

theorem data_ne_nil_of_abs (s : String) (h : posixIsAbsolute s = true) :
    s.data ≠ [] := by
  intro hn
  unfold posixIsAbsolute at h
  rw [hn] at h
  simp [headIsSlash] at h

theorem headIsSlash_append (a b : List Char) (h : a ≠ []) :
    headIsSlash (a ++ b) = headIsSlash a := by
  cases a with
  | nil => exact absurd rfl h
  | cons c rest => rfl

theorem posixNormalize_abs (s : String) (h : posixIsAbsolute s = true) :
    posixIsAbsolute (posixNormalize s) = true := by
  have hnil : s.data ≠ [] := data_ne_nil_of_abs s h
  unfold posixIsAbsolute at h ⊢
  unfold posixNormalize normalizeL
  rw [if_neg hnil]
  simp only [h]
  split <;> simp [headIsSlash]

theorem posixJoin_abs (a b : String) (h : posixIsAbsolute a = true) :
    posixIsAbsolute (posixJoin a b) = true := by
  have hnil : a.data ≠ [] := data_ne_nil_of_abs a h
  unfold posixJoin
  rw [if_neg hnil]
  by_cases hb : b.data = []
  · rw [if_pos hb]
    exact posixNormalize_abs a h
  · rw [if_neg hb]
    apply posixNormalize_abs
    unfold posixIsAbsolute at h ⊢
    rw [string_data_append, string_data_append, List.append_assoc,
      headIsSlash_append _ _ hnil]
    exact h

theorem resolveSeed_abs_base (cwd base raw : String)
    (hbase : posixIsAbsolute base = true) (hraw : posixIsAbsolute raw = false) :
    resolveSeed cwd base raw = (base ++ "/" ++ raw, true) := by
  unfold resolveSeed
  rw [if_neg (by simp [hraw]), if_neg (data_ne_nil_of_abs base hbase), if_pos hbase]

theorem posixResolve_abs_base (cwd base raw : String)
    (hbase : posixIsAbsolute base = true) (hraw : posixIsAbsolute raw = false) :
    posixResolve cwd base raw =
      ⟨'/' :: joinSegs (normSegs false (splitSlash (base.data ++ '/' :: raw.data)))⟩ := by
  unfold posixResolve
  rw [resolveSeed_abs_base cwd base raw hbase hraw]
  simp only [Bool.not_true, if_pos]
  rw [string_data_append, string_data_append, List.append_assoc]
  rfl

theorem posixNormalize_resolve_eq_boardJoin (cwd base raw : String)
    (hbase : posixIsAbsolute base = true) (hraw : posixIsAbsolute raw = false) :
    posixNormalize (posixResolve cwd base raw) = boardJoin base raw := by
  rw [posixResolve_abs_base cwd base raw hbase hraw]
  unfold posixNormalize boardJoin
  exact congrArg String.mk
    (normalizeL_abs_canonical _ (normSegs_false_good _ (splitSlash_no_slash _)))

/-! ## Claims C6 and C7: the path resolver -/

/-- C6 counterexample: the claim says a non-null `basePathOrNull` is returned
unchanged on blank input, but for the non-null empty string the JavaScript
truthiness test `if (basePath)` fails and `resolveBoardPath("", "")` throws
"Empty path provided" instead of returning "". -/
theorem c6_counterexample :
    resolveBoardPath "/home/u" "/cwd" "" (some "") = .error "Empty path provided" ∧
    resolveBoardPath "/home/u" "/cwd" "" (some "") ≠ .ok "" := by
  decide

/-- C6 (amended): for every empty or whitespace-only raw path,
`resolveBoardPath` returns the base path unchanged when it is non-null and
non-empty, and fails with exactly the message "Empty path provided" when the
base path is null or the empty string; it throws in no other way on such
input. -/
theorem c6_blank_path (homedir cwd raw : String) (b : Option String)
    (h : jsIsBlank raw = true) :
    (∀ s, b = some s → s ≠ "" → resolveBoardPath homedir cwd raw b = .ok s) ∧
    ((b = none ∨ b = some "") →
      resolveBoardPath homedir cwd raw b = .error "Empty path provided") := by
  constructor
  · intro s hb hs
    subst hb
    unfold resolveBoardPath
    rw [if_pos h]
    simp [hs]
  · intro hb
    rcases hb with hb | hb
    · subst hb
      unfold resolveBoardPath
      rw [if_pos h]
    · subst hb
      unfold resolveBoardPath
      rw [if_pos h]
      simp

/-- C6 witness: concrete blank inputs exercising both conclusions. -/
theorem c6_witness :
    jsIsBlank "   " = true ∧
    resolveBoardPath "/home/u" "/cwd" "   " (some "/ws") = .ok "/ws" ∧
    resolveBoardPath "/home/u" "/cwd" "   " none = .error "Empty path provided" :=
  ⟨by decide,
   (c6_blank_path "/home/u" "/cwd" "   " (some "/ws") (by decide)).1 "/ws" rfl
     (by decide),
   (c6_blank_path "/home/u" "/cwd" "   " none (by decide)).2 (Or.inl rfl)⟩

/-- C7: for every non-blank raw path: a leading '~' expands to the home
directory joined with the remainder, which is absolute (given an absolute
home directory) and is returned normalized for any base; an absolute raw path
is returned normalized independently of the base; a relative raw path with a
non-null (absolute) base yields the normalized join of the base with the raw
path, resolving '..' segments that cross above the base; a relative raw path
with null base fails with an error naming the offending relative path. -/
theorem c7_resolve_branches (homedir cwd raw : String)
    (hblank : jsIsBlank raw = false) :
    (startsWithTilde raw = true → posixIsAbsolute homedir = true →
      ∀ b : Option String,
        resolveBoardPath homedir cwd raw b =
          .ok (posixNormalize (posixJoin homedir (strTail raw))) ∧
        posixIsAbsolute (posixJoin homedir (strTail raw)) = true) ∧
    (startsWithTilde raw = false → posixIsAbsolute raw = true →
      ∀ b : Option String,
        resolveBoardPath homedir cwd raw b = .ok (posixNormalize raw)) ∧
    (startsWithTilde raw = false → posixIsAbsolute raw = false →
      ∀ base : String, posixIsAbsolute base = true →
        resolveBoardPath homedir cwd raw (some base) = .ok (boardJoin base raw)) ∧
    (startsWithTilde raw = false → posixIsAbsolute raw = false →
      ∃ pre post : String,
        resolveBoardPath homedir cwd raw none = .error (pre ++ raw ++ post)) := by
  refine ⟨?_, ?_, ?_, ?_⟩
  · intro ht habs b
    have hjoin := posixJoin_abs homedir (strTail raw) habs
    unfold resolveBoardPath
    rw [if_neg (by simp [hblank])]
    simp only [ht, ite_true, if_true]
    rw [if_pos hjoin]
    exact ⟨rfl, hjoin⟩
  · intro ht habs b
    unfold resolveBoardPath
    rw [if_neg (by simp [hblank])]
    simp only [ht, Bool.false_eq_true, ite_false, if_false]
    rw [if_pos habs]
  · intro ht habs base hbase
    unfold resolveBoardPath
    rw [if_neg (by simp [hblank])]
    simp only [ht, Bool.false_eq_true, ite_false, if_false]
    rw [if_neg (by simp [habs])]
    exact congrArg Except.ok
      (posixNormalize_resolve_eq_boardJoin cwd base raw hbase habs)
  · intro ht habs
    refine ⟨"Relative path \"",
      "\" cannot be used in global settings. Use an absolute path or ~/ for home directory.",
      ?_⟩
    unfold resolveBoardPath
    rw [if_neg (by simp [hblank])]
    simp only [ht, Bool.false_eq_true, ite_false, if_false]
    rw [if_neg (by simp [habs])]

/-- C7 witness: the specification's own worked example for a workspace-relative
path, obtained through the relative-path conjunct. -/
theorem c7_witness :
    jsIsBlank "boards/my-board" = false ∧
    posixIsAbsolute "/home/user/projects/myproject" = true ∧
    resolveBoardPath "/home/u" "/cwd" "boards/my-board"
      (some "/home/user/projects/myproject") =
      .ok "/home/user/projects/myproject/boards/my-board" :=
  ⟨by decide, by decide, by
    have h := ((c7_resolve_branches "/home/u" "/cwd" "boards/my-board"
      (by decide)).2.2.1) (by decide) (by decide)
      "/home/user/projects/myproject" (by decide)
    rw [h]
    decide⟩

/-! ## Lemmas about the instance manager -/

theorem acquirePhase1_kanbn (s : ManagerState) (d B : String) :
    (acquirePhase1 s d B).2.kanbnInstances = s.kanbnInstances := by
  unfold acquirePhase1
  split <;> rfl

theorem acquirePhase1_spec (s : ManagerState) (d B : String)
    (h4 : ∀ pr ∈ s.documentAdapters, pr.2.adapter.id < s.nextId) :
    (acquirePhase1 s d B).2 =
      { s with documentAdapters := aset s.documentAdapters B (acquirePhase1 s d B).1,
               nextId := (acquirePhase1 s d B).2.nextId } ∧
    s.nextId ≤ (acquirePhase1 s d B).2.nextId ∧
    (acquirePhase1 s d B).1.adapter.id < (acquirePhase1 s d B).2.nextId := by
  unfold acquirePhase1
  split
  · exact ⟨rfl, Nat.le_succ _, Nat.lt_succ_self _⟩
  next info0 heq =>
    exact ⟨rfl, le_refl _, h4 _ (mem_of_alookup _ _ _ heq)⟩

theorem MgrInv_set_adapter (s : ManagerState) (B : String) (info : DocumentAdapterInfo)
    (h : MgrInv s) (hid : info.adapter.id < s.nextId) :
    MgrInv { s with documentAdapters := aset s.documentAdapters B info } := by
  obtain ⟨h1, h2, h3, h4⟩ := h
  refine ⟨h1, nodup_akeys_aset _ _ _ h2, h3, ?_⟩
  intro pr hpr
  rcases mem_aset _ _ _ _ hpr with hp | hp
  · rw [hp]
    exact hid
  · exact h4 pr hp

theorem MgrInv_set_kanbn (s : ManagerState) (B : String) (k : KanbnObj)
    (h : MgrInv s) (hid : k.id < s.nextId) :
    MgrInv { s with kanbnInstances := aset s.kanbnInstances B k } := by
  obtain ⟨h1, h2, h3, h4⟩ := h
  refine ⟨nodup_akeys_aset _ _ _ h1, h2, ?_, h4⟩
  intro pr hpr
  rcases mem_aset _ _ _ _ hpr with hp | hp
  · rw [hp]
    exact hid
  · exact h3 pr hp

theorem MgrInv_bump (s : ManagerState) (n : Nat) (h : MgrInv s) (hn : s.nextId ≤ n) :
    MgrInv { s with nextId := n } := by
  obtain ⟨h1, h2, h3, h4⟩ := h
  exact ⟨h1, h2, fun pr hpr => Nat.lt_of_lt_of_le (h3 pr hpr) hn,
    fun pr hpr => Nat.lt_of_lt_of_le (h4 pr hpr) hn⟩

theorem MgrInv_acquire (s : ManagerState) (d B : String) (h : MgrInv s) :
    MgrInv (getKanbnForDocument s d B).2 := by
  obtain ⟨hspec, hle, hid⟩ := acquirePhase1_spec s d B h.2.2.2
  have hs2 : MgrInv { (acquirePhase1 s d B).2 with
      documentAdapters := aset (acquirePhase1 s d B).2.documentAdapters B
        { (acquirePhase1 s d B).1 with
          documentCallbacks := listSet (acquirePhase1 s d B).1.documentCallbacks d } } := by
    apply MgrInv_set_adapter
    · rw [hspec]
      apply MgrInv_set_adapter _ _ _ (MgrInv_bump s _ h hle) hid
    · rw [hspec]
      exact hid
  unfold getKanbnForDocument
  dsimp only
  split
  next kanbn heq => exact hs2
  next heq =>
      exact MgrInv_set_kanbn _ _ _ (MgrInv_bump _ _ hs2 (Nat.le_succ _))
        (Nat.lt_succ_self _)

theorem MgrInv_cleanup (s : ManagerState) (d B : String) (h : MgrInv s) :
    MgrInv (cleanupDocument s d B) := by
  obtain ⟨h1, h2, h3, h4⟩ := h
  unfold cleanupDocument
  rcases hA : alookup s.documentAdapters B with _ | info
  · exact ⟨h1, h2, h3, h4⟩
  · have hinfo := h4 _ (mem_of_alookup _ _ _ hA)
    have herase : MgrInv { s with documentAdapters := aerase s.documentAdapters B,
                                  kanbnInstances := aerase s.kanbnInstances B } :=
      ⟨nodup_akeys_aerase _ _ h1, nodup_akeys_aerase _ _ h2,
       fun pr hpr => h3 pr (mem_aerase _ _ _ hpr),
       fun pr hpr => h4 pr (mem_aerase _ _ _ hpr)⟩
    have haset : ∀ info1 : DocumentAdapterInfo, info1.adapter.id < s.nextId →
        MgrInv { s with documentAdapters := aset s.documentAdapters B info1 } := by
      intro info1 hid
      refine ⟨h1, nodup_akeys_aset _ _ _ h2, h3, ?_⟩
      intro pr hpr
      rcases mem_aset _ _ _ _ hpr with hp | hp
      · rw [hp]
        exact hid
      · exact h4 pr hp
    dsimp only
    split <;> split
    · exact herase
    · exact haset _ hinfo
    · exact herase
    · exact haset _ hinfo

theorem MgrInv_applyOp (s : ManagerState) (op : MgrOp) (h : MgrInv s) :
    MgrInv (applyOp s op) := by
  cases op with
  | acquire d B => exact MgrInv_acquire s d B h
  | release d B => exact MgrInv_cleanup s d B h

theorem MgrInv_runOps (ops : List MgrOp) : ∀ (s : ManagerState), MgrInv s →
    MgrInv (runOps s ops) := by
  induction ops with
  | nil => intro s h; exact h
  | cons op rest ih => intro s h; exact ih (applyOp s op) (MgrInv_applyOp s op h)

theorem alookup_kanbn_after_acquire (s : ManagerState) (d B : String) :
    alookup (getKanbnForDocument s d B).2.kanbnInstances B =
      some (getKanbnForDocument s d B).1 := by
  unfold getKanbnForDocument
  dsimp only
  split
  next kanbn heq => exact heq
  next heq => exact alookup_aset_self _ _ _

theorem acquire_returns_existing (s : ManagerState) (d B : String) (k : KanbnObj)
    (hk : alookup s.kanbnInstances B = some k) :
    (getKanbnForDocument s d B).1 = k := by
  unfold getKanbnForDocument
  dsimp only
  split
  next kanbn heq =>
      rw [acquirePhase1_kanbn, hk] at heq
      exact (Option.some.inj heq).symm
  next heq =>
      rw [acquirePhase1_kanbn, hk] at heq
      exact absurd heq (by simp)

theorem acquire_kanbn_stable (s : ManagerState) (d B B2 : String) (k : KanbnObj)
    (hk : alookup s.kanbnInstances B2 = some k) :
    alookup (getKanbnForDocument s d B).2.kanbnInstances B2 = some k := by
  unfold getKanbnForDocument
  dsimp only
  split
  next kanbn heq =>
      dsimp only
      rw [acquirePhase1_kanbn]
      exact hk
  next heq =>
      dsimp only at heq ⊢
      rw [acquirePhase1_kanbn] at heq
      by_cases hBB : B2 = B
      · subst hBB
        rw [hk] at heq
        exact absurd heq (by simp)
      · rw [alookup_aset_ne _ _ _ _ hBB, acquirePhase1_kanbn]
        exact hk

theorem cleanup_kanbn_changed (s : ManagerState) (d B B2 : String) :
    alookup (cleanupDocument s d B).kanbnInstances B2 = alookup s.kanbnInstances B2 ∨
    isRegistered (cleanupDocument s d B) B2 = false := by
  unfold cleanupDocument isRegistered
  rcases hA : alookup s.documentAdapters B with _ | info
  · left
    rfl
  · have herase :
        alookup ({ s with documentAdapters := aerase s.documentAdapters B,
                          kanbnInstances := aerase s.kanbnInstances B } :
              ManagerState).kanbnInstances B2 = alookup s.kanbnInstances B2 ∨
        (alookup ({ s with documentAdapters := aerase s.documentAdapters B,
                           kanbnInstances := aerase s.kanbnInstances B } :
              ManagerState).documentAdapters B2).isSome = false := by
      by_cases hBB : B2 = B
      · right
        subst hBB
        simp [alookup_aerase_self]
      · left
        exact alookup_aerase_ne _ _ _ hBB
    dsimp only
    split <;> split
    · exact herase
    · left
      rfl
    · exact herase
    · left
      rfl

theorem applyOp_kanbn_stable (s : ManagerState) (op : MgrOp) (B : String) (k : KanbnObj)
    (hk : alookup s.kanbnInstances B = some k)
    (hreg : isRegistered (applyOp s op) B = true) :
    alookup (applyOp s op).kanbnInstances B = some k := by
  cases op with
  | acquire d B2 => exact acquire_kanbn_stable s d B2 B k hk
  | release d B2 =>
      rcases cleanup_kanbn_changed s d B2 B with h | h
      · rw [applyOp, h]
        exact hk
      · rw [applyOp] at hreg
        rw [hreg] at h
        exact absurd h (by simp)

theorem runOps_kanbn_stable (ops : List MgrOp) : ∀ (t : ManagerState) (B : String)
    (k : KanbnObj), alookup t.kanbnInstances B = some k →
    (∀ n, n ≤ ops.length → isRegistered (runOps t (ops.take n)) B = true) →
    alookup (runOps t ops).kanbnInstances B = some k := by
  induction ops with
  | nil =>
      intro t B k hk _
      exact hk
  | cons op rest ih =>
      intro t B k hk hkeep
      rw [runOps]
      refine ih (applyOp t op) B k ?_ ?_
      · refine applyOp_kanbn_stable t op B k hk ?_
        have h1 := hkeep 1 (by simp)
        simpa [runOps] using h1
      · intro n hn
        have h2 := hkeep (n + 1) (by simpa using Nat.succ_le_succ hn)
        simpa [List.take_succ_cons, runOps] using h2

/-! ## Claims C1 and C2: the instance manager -/

/-- C1: starting from any well-formed manager state, while at least one
document remains registered for board `B` (after the first acquire and after
every subsequent lifecycle operation), every further `getKanbnForDocument`
call for `B` — for any document key — returns the Kanbn object of the first
call, object-identical; and at every intermediate point each board path has
at most one Kanbn instance and at most one adapter registration (the board
keys of both maps stay duplicate-free). -/
theorem c1_single_task_store (s : ManagerState) (hInv : MgrInv s)
    (d1 d2 B : String) (ops : List MgrOp)
    (hkeep : ∀ n, n ≤ ops.length →
      isRegistered (runOps (getKanbnForDocument s d1 B).2 (ops.take n)) B = true) :
    (getKanbnForDocument (runOps (getKanbnForDocument s d1 B).2 ops) d2 B).1 =
      (getKanbnForDocument s d1 B).1 ∧
    (∀ n, n ≤ ops.length →
      (akeys (runOps (getKanbnForDocument s d1 B).2 (ops.take n)).kanbnInstances).Nodup ∧
      (akeys (runOps (getKanbnForDocument s d1 B).2 (ops.take n)).documentAdapters).Nodup) := by
  constructor
  · apply acquire_returns_existing
    exact runOps_kanbn_stable ops _ B _ (alookup_kanbn_after_acquire s d1 B) hkeep
  · intro n hn
    have h := MgrInv_runOps (ops.take n) _ (MgrInv_acquire s d1 B hInv)
    exact ⟨h.1, h.2.1⟩

/-- C1 witness: two documents acquire board "/b" and a third acquire still
returns the object of the first call. -/
theorem c1_witness :
    MgrInv emptyManager ∧
    (getKanbnForDocument (runOps
        (getKanbnForDocument emptyManager "/b/.kanbn/tasks/t1.md" "/b").2
        [MgrOp.acquire "/b/.kanbn/tasks/t2.md" "/b"]) "/b/.kanbn/tasks/t3.md" "/b").1 =
      (getKanbnForDocument emptyManager "/b/.kanbn/tasks/t1.md" "/b").1 :=
  ⟨by decide,
   (c1_single_task_store emptyManager (by decide) "/b/.kanbn/tasks/t1.md"
      "/b/.kanbn/tasks/t3.md" "/b" [MgrOp.acquire "/b/.kanbn/tasks/t2.md" "/b"]
      (by
        intro n hn
        have hn1 : n ≤ 1 := by simpa using hn
        interval_cases n
        · decide
        · decide)).1⟩

theorem acquire_fresh (t : ManagerState) (d2 B : String)
    (hA : alookup t.documentAdapters B = none)
    (hK : alookup t.kanbnInstances B = none) :
    (getKanbnForDocument t d2 B).1.id = t.nextId + 1 ∧
    (getKanbnForDocument t d2 B).1.adapterId = t.nextId ∧
    alookup (getKanbnForDocument t d2 B).2.documentAdapters B =
      some { adapter := { id := t.nextId, callbackKeys := [d2] },
             documentCallbacks := [d2] } := by
  unfold getKanbnForDocument acquirePhase1
  rw [hA]
  dsimp only
  rw [hK]
  dsimp only
  refine ⟨rfl, ?_, ?_⟩
  · simp [listSet]
  · rw [alookup_aset_self]
    simp [listSet]

/-- C2: when `cleanupDocument` removes the last registered document of board
`B`, both the adapter registration and the Kanbn instance are deleted from
the registry, and a subsequent `getKanbnForDocument` for `B` returns a fresh
Kanbn object (identity different from the previous instance) bound to a
fresh adapter (identity different from the previous adapter) whose
live-document callback set contains exactly the newly acquiring document. -/
theorem c2_teardown_and_fresh (s : ManagerState) (hInv : MgrInv s) (d B : String)
    (info : DocumentAdapterInfo)
    (hinfo : alookup s.documentAdapters B = some info)
    (hlast : info.documentCallbacks = [d])
    (k0 : KanbnObj) (hk : alookup s.kanbnInstances B = some k0) :
    alookup (cleanupDocument s d B).documentAdapters B = none ∧
    alookup (cleanupDocument s d B).kanbnInstances B = none ∧
    ∀ d2 : String,
      (getKanbnForDocument (cleanupDocument s d B) d2 B).1.id ≠ k0.id ∧
      (alookup (getKanbnForDocument (cleanupDocument s d B) d2 B).2.documentAdapters
          B).map (fun i => i.adapter.callbackKeys) = some [d2] ∧
      (alookup (getKanbnForDocument (cleanupDocument s d B) d2 B).2.documentAdapters
          B).map (fun i => i.adapter.id) =
        some (getKanbnForDocument (cleanupDocument s d B) d2 B).1.adapterId ∧
      (getKanbnForDocument (cleanupDocument s d B) d2 B).1.adapterId ≠
        info.adapter.id := by
  have hclean : cleanupDocument s d B =
      { s with documentAdapters := aerase s.documentAdapters B,
               kanbnInstances := aerase s.kanbnInstances B } := by
    unfold cleanupDocument
    rw [hinfo]
    dsimp only
    rw [hlast]
    simp [listRemove]
  have hAnone : alookup (cleanupDocument s d B).documentAdapters B = none := by
    rw [hclean]
    exact alookup_aerase_self _ _
  have hKnone : alookup (cleanupDocument s d B).kanbnInstances B = none := by
    rw [hclean]
    exact alookup_aerase_self _ _
  refine ⟨hAnone, hKnone, ?_⟩
  intro d2
  obtain ⟨hid, hadid, hlook⟩ := acquire_fresh _ d2 B hAnone hKnone
  have hnext : (cleanupDocument s d B).nextId = s.nextId := by rw [hclean]
  have hk0 : k0.id < s.nextId := hInv.2.2.1 _ (mem_of_alookup _ _ _ hk)
  have hinfoid : info.adapter.id < s.nextId := hInv.2.2.2 _ (mem_of_alookup _ _ _ hinfo)
  refine ⟨?_, ?_, ?_, ?_⟩
  · rw [hid, hnext]
    omega
  · simp [hlook]
  · simp [hlook, hadid, hnext]
  · rw [hadid, hnext]
    omega

/-- C2 witness: a state with one live document on "/board"; releasing it and
re-acquiring yields a different Kanbn identity. -/
theorem c2_witness :
    MgrInv exManager ∧
    alookup exManager.documentAdapters "/board" =
      some { adapter := { id := 0, callbackKeys := ["/board/.kanbn/tasks/a.md"] },
             documentCallbacks := ["/board/.kanbn/tasks/a.md"] } ∧
    alookup (cleanupDocument exManager "/board/.kanbn/tasks/a.md"
      "/board").kanbnInstances "/board" = none ∧
    (getKanbnForDocument (cleanupDocument exManager "/board/.kanbn/tasks/a.md"
      "/board") "/board/.kanbn/index.md" "/board").1.id ≠
      ({ id := 1, boardPath := "/board", adapterId := 0 } : KanbnObj).id :=
  ⟨by decide, by decide,
   (c2_teardown_and_fresh exManager (by decide) "/board/.kanbn/tasks/a.md" "/board"
      { adapter := { id := 0, callbackKeys := ["/board/.kanbn/tasks/a.md"] },
        documentCallbacks := ["/board/.kanbn/tasks/a.md"] } (by decide) rfl
      { id := 1, boardPath := "/board", adapterId := 0 } (by decide)).2.1,
   ((c2_teardown_and_fresh exManager (by decide) "/board/.kanbn/tasks/a.md" "/board"
      { adapter := { id := 0, callbackKeys := ["/board/.kanbn/tasks/a.md"] },
        documentCallbacks := ["/board/.kanbn/tasks/a.md"] } (by decide) rfl
      { id := 1, boardPath := "/board", adapterId := 0 } (by decide)).2.2
      "/board/.kanbn/index.md").1⟩

/-! ## Claims C3 and C4: routing of reads and writes -/

/-- C3 counterexample: the multi-document adapter stores callback pairs under
the raw `documentUri.fsPath` but looks paths up by normalized form; a
document registered by the constructor under "/board/./index.md" is
therefore missed when `readFile` is called with that very path, and the read
falls through to the real disk, returning "DISK" although the registered
getter's buffer holds "BUFFER". -/
theorem c3_counterexample :
    "/board/./index.md" ∈ exAdapter.docCallbackKeys ∧
    AdapterMulti.readFile exAdapter exWorld "/board/./index.md" = .ok "DISK" ∧
    exWorld.buffers "/board/./index.md" = "BUFFER" ∧
    ("DISK" : String) ≠ "BUFFER" := by
  decide

/-- C3 (amended): for every path whose normalized form carries a registered
callback pair (in particular every path registered in normalized form),
`readFile` returns exactly the registered getter's string — the document
buffer, i.e. the content most recently applied through the setter — and
`access` succeeds unconditionally; neither operation consults the real file
system (replacing the disk does not change either result). -/
theorem c3_live_reads_buffer (a : AdapterMulti) (w : World) (p : String)
    (h : posixNormalize p ∈ a.docCallbackKeys) :
    AdapterMulti.readFile a w p = .ok (w.buffers (posixNormalize p)) ∧
    AdapterMulti.access a w p = .ok () ∧
    (∀ d2 : Disk, AdapterMulti.readFile a { w with disk := d2 } p =
      AdapterMulti.readFile a w p) ∧
    (∀ d2 : Disk, AdapterMulti.access a { w with disk := d2 } p =
      AdapterMulti.access a w p) := by
  refine ⟨?_, ?_, ?_, ?_⟩
  · simp [AdapterMulti.readFile, h]
  · simp [AdapterMulti.access, h]
  · intro d2
    simp [AdapterMulti.readFile, h]
  · intro d2
    simp [AdapterMulti.access, h]

/-- C3 witness: a normalized registration is answered from the buffer. -/
theorem c3_witness :
    posixNormalize "/b/index.md" ∈ (AdapterMulti.new "/b/index.md").docCallbackKeys ∧
    AdapterMulti.readFile (AdapterMulti.new "/b/index.md") exWorld "/b/index.md" =
      .ok (exWorld.buffers (posixNormalize "/b/index.md")) :=
  ⟨by decide,
   (c3_live_reads_buffer (AdapterMulti.new "/b/index.md") exWorld "/b/index.md"
      (by decide)).1⟩

/-- C4 counterexample: with the callback pair registered under the raw path
"/board/./index.md", `writeFile` on exactly that path misses the normalized
lookup, writes to the real file system, and leaves the document buffer
untouched — the claim's "invokes that document's setter with data and
performs no disk write" fails. -/
theorem c4_counterexample :
    "/board/./index.md" ∈ exAdapter.docCallbackKeys ∧
    (AdapterMulti.writeFile exAdapter exWorld "/board/./index.md" "NEW").disk.files
      "/board/index.md" = some "NEW" ∧
    (AdapterMulti.writeFile exAdapter exWorld "/board/./index.md" "NEW").buffers
      "/board/./index.md" = "BUFFER" := by
  decide

/-- C4 (amended): in the disk-backed adapter variants, a write whose
normalized path has a registered callback pair (multi-document variant) or is
the main index document (main-index variant) goes through that document's
setter with exactly the written data and leaves the disk untouched; any
other write goes to the real file system at the path; in all cases no other
live buffer and no other disk path changes. -/
theorem c4_write_routing (a : AdapterMulti) (m : AdapterMain) (w : World)
    (p data : String) :
    (posixNormalize p ∈ a.docCallbackKeys →
      (AdapterMulti.writeFile a w p data).buffers (posixNormalize p) = data ∧
      (∀ q, q ≠ posixNormalize p →
        (AdapterMulti.writeFile a w p data).buffers q = w.buffers q) ∧
      (AdapterMulti.writeFile a w p data).disk = w.disk) ∧
    (posixNormalize p ∉ a.docCallbackKeys →
      (AdapterMulti.writeFile a w p data).disk.files (posixNormalize p) = some data ∧
      (∀ q, q ≠ posixNormalize p →
        (AdapterMulti.writeFile a w p data).disk.files q = w.disk.files q) ∧
      (AdapterMulti.writeFile a w p data).disk.dirs = w.disk.dirs ∧
      (AdapterMulti.writeFile a w p data).buffers = w.buffers) ∧
    (m.isMainIndexFile (posixNormalize p) = true →
      (AdapterMain.writeFileDisk m w p data).buffers m.documentUri = data ∧
      (∀ q, q ≠ m.documentUri →
        (AdapterMain.writeFileDisk m w p data).buffers q = w.buffers q) ∧
      (AdapterMain.writeFileDisk m w p data).disk = w.disk) ∧
    (m.isMainIndexFile (posixNormalize p) = false →
      (AdapterMain.writeFileDisk m w p data).disk.files (posixNormalize p) =
        some data ∧
      (∀ q, q ≠ posixNormalize p →
        (AdapterMain.writeFileDisk m w p data).disk.files q = w.disk.files q) ∧
      (AdapterMain.writeFileDisk m w p data).disk.dirs = w.disk.dirs ∧
      (AdapterMain.writeFileDisk m w p data).buffers = w.buffers) := by
  refine ⟨?_, ?_, ?_, ?_⟩
  · intro h
    refine ⟨by simp [AdapterMulti.writeFile, h], ?_, by simp [AdapterMulti.writeFile, h]⟩
    intro q hq
    simp [AdapterMulti.writeFile, h, hq]
  · intro h
    refine ⟨by simp [AdapterMulti.writeFile, h, fsWriteFile], ?_,
      by simp [AdapterMulti.writeFile, h, fsWriteFile],
      by simp [AdapterMulti.writeFile, h, fsWriteFile]⟩
    intro q hq
    simp [AdapterMulti.writeFile, h, fsWriteFile, hq]
  · intro h
    refine ⟨by simp [AdapterMain.writeFileDisk, h], ?_,
      by simp [AdapterMain.writeFileDisk, h]⟩
    intro q hq
    simp [AdapterMain.writeFileDisk, h, hq]
  · intro h
    refine ⟨by simp [AdapterMain.writeFileDisk, h, fsWriteFile], ?_,
      by simp [AdapterMain.writeFileDisk, h, fsWriteFile],
      by simp [AdapterMain.writeFileDisk, h, fsWriteFile]⟩
    intro q hq
    simp [AdapterMain.writeFileDisk, h, fsWriteFile, hq]

/-- C4 witness: a normalized registration routes the write to the buffer. -/
theorem c4_witness :
    posixNormalize "/b/index.md" ∈ (AdapterMulti.new "/b/index.md").docCallbackKeys ∧
    (AdapterMulti.writeFile (AdapterMulti.new "/b/index.md") exWorld "/b/index.md"
      "NEW").buffers (posixNormalize "/b/index.md") = "NEW" :=
  ⟨by decide,
   ((c4_write_routing (AdapterMulti.new "/b/index.md")
      { documentUri := "/b/.kanbn/index.md", fileContentMap := [], fileExistsMap := [] }
      exWorld "/b/index.md" "NEW").1 (by decide)).1⟩

/-! ## Claim C8: idempotent mkdir and unlink on both variants -/

/-- C8: on the disk-backed variants, `mkdir` called again on a path whose
directory already exists succeeds without change (the EEXIST condition is
swallowed), `unlink` on a path that does not exist succeeds as a no-op (the
ENOENT condition is swallowed), and any other underlying failure of either
operation is rethrown; on the fully virtual variant both operations are
total, `mkdir` is idempotent, and `unlink` of an absent entry leaves the
adapter unchanged. -/
theorem c8_mkdir_unlink_idempotent (w w2 : World) (p : String) (a : AdapterMain)
    (e : FsErr) :
    (mkdirReal w p = .ok w2 → mkdirReal w2 p = .ok w2) ∧
    (w.disk.files (posixNormalize p) = none →
      w.disk.dirs (posixNormalize p) = false → unlinkReal w p = .ok w) ∧
    (fsExists w.disk p = false → w.disk.mkdirFault p = some e → e ≠ .eexist →
      mkdirReal w p = .error e) ∧
    (∀ c, w.disk.files (posixNormalize p) = some c → w.disk.unlinkFault p = some e →
      e ≠ .enoent → unlinkReal w p = .error e) ∧
    (AdapterMain.mkdirVirt (AdapterMain.mkdirVirt a p) p = AdapterMain.mkdirVirt a p) ∧
    (alookup a.fileContentMap (posixNormalize p) = none →
      alookup a.fileExistsMap (posixNormalize p) = none →
      AdapterMain.unlinkVirt a p = a) := by
  refine ⟨?_, ?_, ?_, ?_, ?_, ?_⟩
  · intro h
    unfold mkdirReal at h ⊢
    cases hm : fsMkdir w.disk p with
    | ok d =>
        rw [hm] at h
        unfold fsMkdir at hm
        by_cases hex : fsExists w.disk p
        · rw [if_pos hex] at hm
          exact absurd hm (by simp)
        · rw [if_neg hex] at hm
          cases hf : w.disk.mkdirFault p with
          | some e2 =>
              rw [hf] at hm
              exact absurd hm (by simp)
          | none =>
              rw [hf] at hm
              have hd : d = { w.disk with
                  dirs := fun q => if q = posixNormalize p then true else w.disk.dirs q } :=
                (Except.ok.inj hm).symm
              have hw2 : w2 = { w with disk := d } := (Except.ok.inj h).symm
              have hex2 : fsExists w2.disk p = true := by
                rw [hw2, hd]
                simp [fsExists]
              have hm2 : fsMkdir w2.disk p = .error .eexist := by
                unfold fsMkdir
                rw [if_pos hex2]
              rw [hm2]
    | error err =>
        rw [hm] at h
        cases err with
        | eexist =>
            have hw2 : w2 = w := (Except.ok.inj h).symm
            subst hw2
            rw [hm]
        | enoent => exact absurd h (by simp)
        | eisdir => exact absurd h (by simp)
        | eother => exact absurd h (by simp)
  · intro hf hd
    simp [unlinkReal, fsUnlink, hf, hd]
  · intro hex hf hne
    cases e with
    | eexist => exact absurd rfl hne
    | enoent => simp [mkdirReal, fsMkdir, hex, hf]
    | eisdir => simp [mkdirReal, fsMkdir, hex, hf]
    | eother => simp [mkdirReal, fsMkdir, hex, hf]
  · intro c hc hf hne
    cases e with
    | enoent => exact absurd rfl hne
    | eexist => simp [unlinkReal, fsUnlink, hc, hf]
    | eisdir => simp [unlinkReal, fsUnlink, hc, hf]
    | eother => simp [unlinkReal, fsUnlink, hc, hf]
  · simp [AdapterMain.mkdirVirt, aset_aset]
  · intro h1 h2
    unfold AdapterMain.unlinkVirt
    rw [aerase_of_none _ _ h1, aerase_of_none _ _ h2]

/-- C8 witness: unlink of a missing path is a no-op and the virtual mkdir is
idempotent on a concrete adapter. -/
theorem c8_witness :
    exWorld.disk.files (posixNormalize "/b/t/x.md") = none ∧
    unlinkReal exWorld "/b/t/x.md" = .ok exWorld ∧
    AdapterMain.mkdirVirt (AdapterMain.mkdirVirt exMainAdapter "/b/t") "/b/t" =
      AdapterMain.mkdirVirt exMainAdapter "/b/t" :=
  ⟨by decide,
   (c8_mkdir_unlink_idempotent exWorld exWorld "/b/t/x.md" exMainAdapter
      .eother).2.1 (by decide) (by decide),
   (c8_mkdir_unlink_idempotent exWorld exWorld "/b/t" exMainAdapter
      .eother).2.2.2.2.1⟩

/-! ## Claim C9: glob of the fully virtual variant -/

/-- C9 counterexample: for the pattern "/b/*.txt" the virtual entry
"/b/a.txt" matches the pattern but the adapter's `glob` returns nothing — the
virtual side of the union is collected only for "*.md" file patterns, so the
result is not the union of matching real and virtual paths. -/
theorem c9_counterexample :
    globMatchStar "/b/*.txt" "/b/a.txt" = true ∧
    "/b/a.txt" ∈ akeys exMainAdapter.fileContentMap ∧
    AdapterMain.globVirt exMainAdapter (fun _ => []) "/b/*.txt" = [] ∧
    ¬ ("/b/a.txt" ∈ AdapterMain.globVirt exMainAdapter (fun _ => []) "/b/*.txt") := by
  decide

/-- C9 (amended): `glob` returns, when the pattern's final segment is
"*.md", the virtual entries whose path has the pattern's normalized directory
as a string prefix and ends in ".md" (an over-approximation of strict glob
matching), and for any pattern the real glob results that are not already
present in the virtual content map; under unique, normalized virtual keys
and duplicate-free real results, no path appears twice. -/
theorem c9_glob_union (a : AdapterMain) (realGlob : String → List String)
    (pattern : String)
    (h1 : (akeys a.fileContentMap).Nodup)
    (h2 : ∀ k ∈ akeys a.fileContentMap, posixNormalize k = k)
    (h3 : (realGlob pattern).Nodup) :
    (∀ x, x ∈ AdapterMain.globVirt a realGlob pattern ↔
      (((splitAtLastSlash pattern).2 = "*.md" ∧ x ∈ akeys a.fileContentMap ∧
        strStartsWith x (posixNormalize (splitAtLastSlash pattern).1) = true ∧
        strEndsWith x ".md" = true) ∨
       (x ∈ realGlob pattern ∧ alookup a.fileContentMap (posixNormalize x) = none))) ∧
    (AdapterMain.globVirt a realGlob pattern).Nodup := by
  constructor
  · intro x
    unfold AdapterMain.globVirt
    dsimp only
    rw [List.mem_append]
    constructor
    · rintro (hx | hx)
      · left
        by_cases hmd : (splitAtLastSlash pattern).2 = "*.md"
        · rw [if_pos hmd] at hx
          rw [List.mem_filter] at hx
          obtain ⟨hs, he⟩ := Bool.and_eq_true_iff.mp hx.2
          exact ⟨hmd, hx.1, hs, he⟩
        · rw [if_neg hmd] at hx
          simp at hx
      · right
        rw [List.mem_filter] at hx
        refine ⟨hx.1, ?_⟩
        simpa [Option.isSome_iff_exists] using hx.2
    · rintro (⟨hmd, hmem, hst, hen⟩ | ⟨hmem, hnone⟩)
      · left
        rw [if_pos hmd, List.mem_filter]
        exact ⟨hmem, by rw [hst, hen]; rfl⟩
      · right
        rw [List.mem_filter]
        exact ⟨hmem, by simp [hnone]⟩
  · unfold AdapterMain.globVirt
    dsimp only
    by_cases hmd : (splitAtLastSlash pattern).2 = "*.md"
    · rw [if_pos hmd]
      refine List.Nodup.append (h1.filter _) (h3.filter _) ?_
      intro x hx hx2
      have hxk : x ∈ akeys a.fileContentMap := (List.mem_filter.mp hx).1
      have hnorm := h2 x hxk
      have hnone : alookup a.fileContentMap (posixNormalize x) = none := by
        simpa [Option.isSome_iff_exists] using (List.mem_filter.mp hx2).2
      rw [hnorm, alookup_eq_none_iff] at hnone
      exact hnone hxk
    · rw [if_neg hmd]
      simp only [List.nil_append]
      exact h3.filter _

/-- C9 witness: a concrete virtual adapter with duplicate-free, normalized
keys yields a duplicate-free glob result. -/
theorem c9_witness :
    (akeys exMainAdapter.fileContentMap).Nodup ∧
    (∀ k ∈ akeys exMainAdapter.fileContentMap, posixNormalize k = k) ∧
    (AdapterMain.globVirt exMainAdapter (fun _ => ["/b/real.txt"]) "/b/*.txt").Nodup :=
  ⟨by decide, by decide,
   (c9_glob_union exMainAdapter (fun _ => ["/b/real.txt"]) "/b/*.txt" (by decide)
      (by decide) (by decide)).2⟩

/-! ## Claims C5 and C10: the edit coordinator -/

/-- C5: the change record emitted by `makeEdit` carries an undo that restores
the document's byte buffer exactly (byte for byte) to its content from
immediately before the edit callback ran, and a redo that — invoked after
that undo — restores it exactly to its content from immediately after the
callback completed. -/
theorem c5_undo_redo_roundtrip {E : Type} (label : String)
    (editCallback : EditorDoc E → EditorDoc E) (d : EditorDoc E)
    (r : ChangeRecord (EditorDoc E)) (h : r ∈ (makeEdit label editCallback d).2) :
    (r.undo (makeEdit label editCallback d).1).documentData = d.documentData ∧
    (r.redo (r.undo (makeEdit label editCallback d).1)).documentData =
      ((makeEdit label editCallback d).1).documentData := by
  have hr : r =
      { label := label
        undo := fun x => { x with documentData := d.documentData }
        redo := fun x => { x with documentData := (editCallback d).documentData } } := by
    simpa [makeEdit] using h
  subst hr
  exact ⟨rfl, rfl⟩

/-- C5 witness: a concrete edit replacing the buffer round-trips. -/
theorem c5_witness :
    exRec ∈ (makeEdit "edit" exEdit exDoc).2 ∧
    (exRec.undo (makeEdit "edit" exEdit exDoc).1).documentData = exDoc.documentData :=
  ⟨by unfold exRec; exact List.head_mem _,
   (c5_undo_redo_roundtrip "edit" exEdit exDoc exRec
      (by unfold exRec; exact List.head_mem _)).1⟩

/-- C10: every `makeEdit` call whose callback resolves fires exactly one
document-change event, and when the callback leaves the byte buffer
unchanged (for instance because a failed task-store call was caught inside
it) the fired undo and redo restore the same byte content — the no-op edit
still registers with the host. -/
theorem c10_single_change_event {E : Type} (label : String)
    (editCallback : EditorDoc E → EditorDoc E) (d : EditorDoc E) :
    ((makeEdit label editCallback d).2).length = 1 ∧
    (∀ r ∈ (makeEdit label editCallback d).2,
      ((makeEdit label editCallback d).1).documentData = d.documentData →
      ∀ x y : EditorDoc E, (r.undo x).documentData = (r.redo y).documentData) := by
  constructor
  · rfl
  · intro r hr heq x y
    have hr2 : r =
        { label := label
          undo := fun z => { z with documentData := d.documentData }
          redo := fun z => { z with documentData := (editCallback d).documentData } } := by
      simpa [makeEdit] using hr
    subst hr2
    exact heq.symm

/-- C10 witness: the identity callback fires one event whose undo and redo
agree. -/
theorem c10_witness :
    ((makeEdit "noop" id exDoc).2).length = 1 ∧
    (exRecId.undo exDoc).documentData = (exRecId.redo exDoc).documentData :=
  ⟨(c10_single_change_event "noop" id exDoc).1,
   (c10_single_change_event "noop" id exDoc).2 exRecId
     (by unfold exRecId; exact List.head_mem _) rfl exDoc exDoc⟩
